import Mathlib

/-!
Shallow embedding of `src/python.py` (llm-json-fixer): an iterative JSON
repair loop.  External collaborators (the JSON validator subprocess, the
Python-syntax prober, the remote text-generation service, the `json.loads`
parser and the `re.sub` regex engine of the Python standard library) are
modelled as parameters of an environment record; everything the repository
itself implements (fence stripping, fix application and dispatch, error
summary and prompt construction, the bounded repair loop) is translated
directly from the source.
-/

namespace JsonFixer

/-- The backtick character used by markdown code fences. -/
def fenceChar : Char := Char.ofNat 96

/-- Model of Python `str.isspace` membership for `str.strip()` over the
whitespace characters relevant here (ASCII whitespace). -/
def isSpace (c : Char) : Bool :=
  c == ' ' || c == '\t' || c == '\n' || c == '\r' || c == '\x0b' || c == '\x0c'

/-- Model of the character class `[a-zA-Z0-9]` from the leading-fence regex
in `strip_markdown_fences` (src/python.py line 35). -/
def isAlnum (c : Char) : Bool :=
  (Nat.ble 97 c.toNat && Nat.ble c.toNat 122) ||
  (Nat.ble 65 c.toNat && Nat.ble c.toNat 90) ||
  (Nat.ble 48 c.toNat && Nat.ble c.toNat 57)

/-- Drop leading whitespace (the left half of Python `str.strip()`). -/
def trimL (l : List Char) : List Char := l.dropWhile isSpace

/-- Drop trailing whitespace (the right half of Python `str.strip()`). -/
def trimR (l : List Char) : List Char := (l.reverse.dropWhile isSpace).reverse

/-- Model of Python `str.strip()` on a character list. -/
def stripChars (l : List Char) : List Char := trimL (trimR l)

/-- Model of `re.sub(r'^```[a-zA-Z0-9]*\n?', '', text)` (src/python.py
line 35): on a string with no leading whitespace the anchored pattern can
match only once, removing three backticks, a maximal run of alphanumerics
and at most one newline. -/
def dropLeadingFence (l : List Char) : List Char :=
  match l with
  | a :: b :: c :: rest =>
    if a = fenceChar ∧ b = fenceChar ∧ c = fenceChar then
      match rest.dropWhile isAlnum with
      | d :: r2 => if d = '\n' then r2 else d :: r2
      | [] => []
    else l
  | _ => l

/-- Model of `re.sub(r'```$', '', text)` (src/python.py line 37): on a
string with no trailing whitespace the pattern can match only at the very
end, removing a trailing run of three backticks. -/
def dropTrailingFence (l : List Char) : List Char :=
  match l.reverse with
  | a :: b :: c :: rest =>
    if a = fenceChar ∧ b = fenceChar ∧ c = fenceChar then rest.reverse else l
  | _ => l

/-- `strip_markdown_fences` (src/python.py lines 16-38): strip whitespace,
remove an optional leading code fence with optional language tag, remove an
optional trailing code fence, strip whitespace again. -/
def strip_markdown_fences (s : String) : String :=
  String.mk (stripChars (dropTrailingFence (dropLeadingFence (stripChars s.data))))

/-- Model of Python `str.strip()` at the `String` level. -/
def pythonStrip (s : String) : String := String.mk (stripChars s.data)

/-- Model of the Python values produced by `json.loads`. -/
inductive Json where
  | obj (fields : List (String × Json))
  | arr (elems : List Json)
  | str (s : String)
  | num (n : Int)
  | bool (b : Bool)
  | null

/-- Python exceptions that can escape `apply_fix_to_file`. -/
inductive PyErr where
  | typeError
  | keyError
deriving DecidableEq

/-- Naive contiguous-substring test: `startsWithChars n h` holds when `n`
is an initial segment of `h`. -/
def startsWithChars : List Char → List Char → Bool
  | [], _ => true
  | _ :: _, [] => false
  | a :: n, b :: h => a == b && startsWithChars n h

/-- `containsSub n h`: `n` occurs as a contiguous substring of `h`
(Python `n in h` for strings). -/
def containsSub : List Char → List Char → Bool
  | n, [] => startsWithChars n []
  | n, b :: h => startsWithChars n (b :: h) || containsSub n h

/-- Python membership `key in fix_data` for a `json.loads` result: key
lookup for dicts, substring test for strings, element equality for lists,
and a `TypeError` for numbers, booleans and `None`. -/
def pyContains (j : Json) (key : String) : Except PyErr Bool :=
  match j with
  | Json.obj fields => Except.ok (fields.any (fun kv => key == kv.1))
  | Json.str s => Except.ok (containsSub key.data s.data)
  | Json.arr elems =>
    Except.ok (elems.any (fun e => match e with
      | Json.str t => t == key
      | _ => false))
  | _ => Except.error PyErr.typeError

/-- Python subscript `fix_data[key]`: dict lookup, and a `TypeError` for
every non-dict value (string and list subscripts must be integers). -/
def pyIndex (j : Json) (key : String) : Except PyErr Json :=
  match j with
  | Json.obj fields =>
    match List.lookup key fields with
    | some v => Except.ok v
    | none => Except.error PyErr.keyError
  | _ => Except.error PyErr.typeError

/-- Coercion of a fix-suggestion field to a Python `str` as required by
`re.sub` and `file.write`; any other type raises `TypeError`. -/
def asStr (j : Json) : Except PyErr String :=
  match j with
  | Json.str s => Except.ok s
  | _ => Except.error PyErr.typeError

/-- Environment of external collaborators of the repair loop:
`validator` models `run_jsonlint` (content ↦ (is_valid, lint_output)),
`prober` models `simulate_python_execution` (content ↦ (ok, message)),
`llm` models the remote service (prompt ↦ raw text of the top choice),
`jsonLoads` models Python `json.loads` on the fix response (`none` for a
`JSONDecodeError`), and `reSub` models `re.sub pattern replacement s`,
which replaces every non-overlapping match of `pattern` in `s`. -/
structure Env where
  validator : String → Bool × String
  prober : String → Bool × String
  llm : String → String
  jsonLoads : String → Option Json
  reSub : String → String → String → String

/-- `apply_fix_to_file` (src/python.py lines 171-232) on explicit file
content.  Returns `(changed, new_content, writes)` or a propagated Python
exception.  A `JSONDecodeError` from `json.loads` is caught and yields
`changed = false`; the branch structure mirrors
`if "regex_pattern" in fix_data and "replacement" in fix_data / elif
"replacement" in fix_data / else`. -/
def apply_fix_to_file (env : Env) (fix_response old_content : String) :
    Except PyErr (Bool × String × Nat) :=
  match env.jsonLoads fix_response with
  | none => Except.ok (false, old_content, 0)
  | some fd =>
    match pyContains fd "regex_pattern" with
    | Except.error e => Except.error e
    | Except.ok hasPat =>
      if hasPat then
        match pyContains fd "replacement" with
        | Except.error e => Except.error e
        | Except.ok hasRepl =>
          if hasRepl then
            match pyIndex fd "regex_pattern" with
            | Except.error e => Except.error e
            | Except.ok pv =>
              match pyIndex fd "replacement" with
              | Except.error e => Except.error e
              | Except.ok rv =>
                match asStr pv with
                | Except.error e => Except.error e
                | Except.ok pat =>
                  match asStr rv with
                  | Except.error e => Except.error e
                  | Except.ok repl =>
                    if env.reSub pat repl old_content = old_content then
                      Except.ok (false, old_content, 0)
                    else
                      Except.ok (true, env.reSub pat repl old_content, 1)
          else
            Except.ok (false, old_content, 0)
      else
        match pyContains fd "replacement" with
        | Except.error e => Except.error e
        | Except.ok hasRepl =>
          if hasRepl then
            match pyIndex fd "replacement" with
            | Except.error e => Except.error e
            | Except.ok rv =>
              match asStr rv with
              | Except.error e => Except.error e
              | Except.ok repl => Except.ok (true, repl, 1)
          else
            Except.ok (false, old_content, 0)

/-- The error summary built in `fix_json_until_valid` (src/python.py
lines 264-267): the lint output, extended with the prober message when the
prober reported a syntax error. -/
def errorSummary (env : Env) (c : String) : String :=
  let lint := (env.validator c).2
  let py := env.prober c
  let base := "JSON Lint Output:\n" ++ lint
  if py.1 then base else base ++ "\n\nPython SyntaxError:\n" ++ py.2

/-- The prompt f-string of `call_openai_for_fix` (src/python.py
lines 110-140), embedding the error output and the current file content. -/
def buildPrompt (error_output current_content : String) : String :=
  "\nWe have a JSON file that might be invalid JSON or might have caused\na Python SyntaxError if someone tried to run it directly as Python code.\n\nError output:\n---\n"
  ++ error_output
  ++ "\n---\n\nThe current content of the JSON file is:\n---\n"
  ++ current_content
  ++ "\n---\n\nPlease provide a concise fix recommendation in JSON form. Example format:\n\n\x7b\n  \"regex_pattern\": \"some pattern\",\n  \"replacement\": \"some replacement\",\n  \"explanation\": \"one line explanation\"\n\x7d\n\nIf you prefer to provide a direct updated JSON snippet, use:\n\n\x7b\n  \"replacement\": \"...the entire corrected JSON...\",\n  \"explanation\": \"some explanation\"\n\x7d\n\nReturn valid JSON with these keys. Do not wrap your answer with extra text.\n"

/-- `call_openai_for_fix` (src/python.py lines 105-168): build the prompt,
obtain the top response choice from the remote service, and return it with
markdown fences stripped. -/
def call_openai_for_fix (env : Env) (error_output current_content : String) : String :=
  strip_markdown_fences (env.llm (buildPrompt error_output current_content))

/-- Terminal states of the repair loop. -/
inductive Outcome where
  | Done
  | Aborted
  | Exhausted
  | Crashed (e : PyErr)
deriving DecidableEq

/-- Observable result of a run of `fix_json_until_valid`: the terminal
state, the final file content, the number of validator checks, the number
of file writes, and the number of loop iterations entered. -/
structure RunResult where
  outcome : Outcome
  content : String
  checks : Nat
  writes : Nat
  iterations : Nat
deriving DecidableEq

/-- The body of `fix_json_until_valid` (src/python.py lines 244-286) with
the remaining iteration budget as fuel: validate, and on failure probe,
request a fix, apply it, and recurse while the fix changed the file. -/
def fixLoopAux (env : Env) : Nat → String → RunResult
  | 0, c => ⟨Outcome.Exhausted, c, 0, 0, 0⟩
  | Nat.succ n, c =>
    if (env.validator c).1 then ⟨Outcome.Done, c, 1, 0, 1⟩
    else
      let fix_suggestion := call_openai_for_fix env (errorSummary env c) c
      match apply_fix_to_file env fix_suggestion c with
      | Except.error e => ⟨Outcome.Crashed e, c, 1, 0, 1⟩
      | Except.ok (changed, c2, w) =>
        if changed then
          let r := fixLoopAux env n c2
          ⟨r.outcome, r.content, r.checks + 1, r.writes + w, r.iterations + 1⟩
        else ⟨Outcome.Aborted, c, 1, 0, 1⟩

/-- `fix_json_until_valid` (src/python.py line 235) starting from the
initial file content with the configured iteration budget. -/
def fix_json_until_valid (env : Env) (c : String) (max_iterations : Nat) : RunResult :=
  fixLoopAux env max_iterations c

/-- The default `max_iterations` of `fix_json_until_valid`. -/
def default_max_iterations : Nat := 10

/-- The file content after one loop iteration: unchanged when the content
validates or when the fix fails, otherwise the applier's new content. -/
def stepContent (env : Env) (c : String) : String :=
  if (env.validator c).1 then c
  else
    match apply_fix_to_file env (call_openai_for_fix env (errorSummary env c) c) c with
    | Except.ok (_, c2, _) => c2
    | Except.error _ => c

/-- The file content after `n` loop iterations. -/
def iterContent (env : Env) : Nat → String → String
  | 0, c => c
  | Nat.succ n, c => iterContent env n (stepContent env c)

/-- Wrapping a response in a leading code fence with a language tag and a
trailing code fence, the way a markdown-formatted model reply does. -/
def wrapFence (tag s : String) : String := "```" ++ tag ++ "\n" ++ s ++ "\n```"

/-- List-level form of `wrapFence`. -/
def wrapList (tag s : List Char) : List Char :=
  fenceChar :: fenceChar :: fenceChar ::
    (tag ++ '\n' :: (s ++ ['\n', fenceChar, fenceChar, fenceChar]))

/- ### Concrete environments for witnesses and counterexamples -/

/-- A fix response carrying both `regex_pattern` and `replacement`. -/
def rxResp : String := "\x7b\"regex_pattern\": \"a\", \"replacement\": \"b\"\x7d"

/-- A full-replacement fix response with replacement `y`. -/
def frRespY : String := "\x7b\"replacement\": \"y\"\x7d"

/-- A full-replacement fix response with replacement `x`. -/
def frRespX : String := "\x7b\"replacement\": \"x\"\x7d"

/-- An environment whose validator accepts every content. -/
def envValid : Env :=
  { validator := fun _ => (true, "Valid JSON")
    prober := fun _ => (true, "No SyntaxError")
    llm := fun _ => ""
    jsonLoads := fun _ => none
    reSub := fun _ _ c => c }

/-- An environment whose validator rejects everything and whose remote
service answers with prose that is not JSON. -/
def envParseFail : Env :=
  { validator := fun _ => (false, "Parse error: invalid JSON")
    prober := fun _ => (true, "No SyntaxError")
    llm := fun _ => "I cannot help with that"
    jsonLoads := fun _ => none
    reSub := fun _ _ c => c }

/-- An environment whose remote service suggests a regex fix replacing
pattern `a` by `b`, with a substitution engine that rewrites the whole
content to the replacement. -/
def envRegexFix : Env :=
  { validator := fun _ => (false, "Parse error: invalid JSON")
    prober := fun _ => (true, "No SyntaxError")
    llm := fun _ => rxResp
    jsonLoads := fun s =>
      if s = rxResp then
        some (Json.obj [("regex_pattern", Json.str "a"), ("replacement", Json.str "b")])
      else none
    reSub := fun _ r _ => r }

/-- Like `envRegexFix` but with a substitution engine whose pattern never
matches, leaving the content unchanged. -/
def envRegexNoop : Env :=
  { validator := fun _ => (false, "Parse error: invalid JSON")
    prober := fun _ => (true, "No SyntaxError")
    llm := fun _ => rxResp
    jsonLoads := fun s =>
      if s = rxResp then
        some (Json.obj [("regex_pattern", Json.str "a"), ("replacement", Json.str "b")])
      else none
    reSub := fun _ _ c => c }

/-- An environment whose remote service always proposes the full
replacement `y` for an always-invalid file. -/
def envFullY : Env :=
  { validator := fun _ => (false, "Parse error: invalid JSON")
    prober := fun _ => (true, "No SyntaxError")
    llm := fun _ => frRespY
    jsonLoads := fun s =>
      if s = frRespY then some (Json.obj [("replacement", Json.str "y")]) else none
    reSub := fun _ _ c => c }

/-- An environment whose remote service always proposes the full
replacement `x`, byte-for-byte identical to the starting content `x`. -/
def envFullX : Env :=
  { validator := fun _ => (false, "Parse error: invalid JSON")
    prober := fun _ => (true, "No SyntaxError")
    llm := fun _ => frRespX
    jsonLoads := fun s =>
      if s = frRespX then some (Json.obj [("replacement", Json.str "x")]) else none
    reSub := fun _ _ c => c }

/-- An environment whose remote service answers with the bare JSON number
`123`, which `json.loads` parses to a Python `int`. -/
def envCrash : Env :=
  { validator := fun _ => (false, "Parse error: invalid JSON")
    prober := fun _ => (true, "No SyntaxError")
    llm := fun _ => "123"
    jsonLoads := fun s => if s = "123" then some (Json.num 123) else none
    reSub := fun _ _ c => c }

/-- An environment whose remote service wraps its answer in markdown
fences. -/
def envFenced : Env :=
  { validator := fun _ => (false, "Parse error: invalid JSON")
    prober := fun _ => (true, "No SyntaxError")
    llm := fun _ => "```json\n\x7b\x7d\n```"
    jsonLoads := fun _ => none
    reSub := fun _ _ c => c }

/-- An environment whose remote service answers with clean unfenced
text. -/
def envCleanResp : Env :=
  { validator := fun _ => (false, "Parse error: invalid JSON")
    prober := fun _ => (true, "No SyntaxError")
    llm := fun _ => "ok"
    jsonLoads := fun _ => none
    reSub := fun _ _ c => c }

/-- An environment with a succeeding syntax prober. -/
def envProbeOk : Env :=
  { validator := fun _ => (false, "Parse error: invalid JSON")
    prober := fun _ => (true, "No SyntaxError")
    llm := fun _ => "nope"
    jsonLoads := fun _ => none
    reSub := fun _ _ c => c }

/-- `envProbeOk` with the syntax prober reporting a failure instead. -/
def envProbeBad : Env :=
  { validator := fun _ => (false, "Parse error: invalid JSON")
    prober := fun _ => (false, "SyntaxError: invalid syntax at line 1, col 1")
    llm := fun _ => "nope"
    jsonLoads := fun _ => none
    reSub := fun _ _ c => c }

/- ### Basic list lemmas -/

theorem dropWhile_sub (p : Char → Bool) (l : List Char) :
    ∃ t, l = t ++ l.dropWhile p := by
  induction l with
  | nil => exact ⟨[], rfl⟩
  | cons a l ih =>
    by_cases ha : p a
    · obtain ⟨t, ht⟩ := ih
      exact ⟨a :: t, by simp [List.dropWhile_cons, ha]; exact ht⟩
    · exact ⟨[], by simp [List.dropWhile_cons, ha]⟩

theorem dropWhile_head_false (p : Char → Bool) (l : List Char) (a : Char)
    (t : List Char) (h : l.dropWhile p = a :: t) : p a = false := by
  induction l with
  | nil => simp at h
  | cons b l ih =>
    by_cases hb : p b
    · rw [List.dropWhile_cons, if_pos hb] at h
      exact ih h
    · rw [List.dropWhile_cons, if_neg hb] at h
      cases h
      simpa using hb

theorem dropWhile_cons_false (p : Char → Bool) (a : Char) (l : List Char)
    (h : p a = false) : (a :: l).dropWhile p = a :: l := by
  simp [List.dropWhile_cons, h]

theorem dropWhile_idem (p : Char → Bool) (l : List Char) :
    (l.dropWhile p).dropWhile p = l.dropWhile p := by
  rcases h : l.dropWhile p with _ | ⟨a, t⟩
  · rfl
  · exact dropWhile_cons_false p a t (dropWhile_head_false p l a t h)

theorem dropWhile_append_all (p : Char → Bool) (l1 l2 : List Char)
    (h : ∀ a ∈ l1, p a = true) : (l1 ++ l2).dropWhile p = l2.dropWhile p := by
  induction l1 with
  | nil => rfl
  | cons a l ih =>
    rw [List.cons_append, List.dropWhile_cons, if_pos (h a (by simp))]
    exact ih (fun b hb => h b (by simp [hb]))

theorem trimL_sub (l : List Char) : ∃ t, l = t ++ trimL l :=
  dropWhile_sub isSpace l

theorem trimR_sub (l : List Char) : ∃ t, l = trimR l ++ t := by
  obtain ⟨t, ht⟩ := dropWhile_sub isSpace l.reverse
  refine ⟨t.reverse, ?_⟩
  have := congrArg List.reverse ht
  simpa [trimR] using this

theorem trimR_reverse_eq (l : List Char) :
    (trimR l).reverse = l.reverse.dropWhile isSpace := by
  simp [trimR]

theorem trimR_trimL_trimR (l : List Char) :
    trimR (trimL (trimR l)) = trimL (trimR l) := by
  rcases hz : trimL (trimR l) with _ | ⟨a, t⟩
  · rfl
  · rcases hzr : (trimL (trimR l)).reverse with _ | ⟨b, s⟩
    · rw [hz] at hzr; simp at hzr
    · obtain ⟨pre, hpre⟩ := trimL_sub (trimR l)
      have hyrev : (trimR l).reverse = (trimL (trimR l)).reverse ++ pre.reverse := by
        conv_lhs => rw [hpre]
        simp
      have hb : isSpace b = false := by
        apply dropWhile_head_false isSpace l.reverse b (s ++ pre.reverse)
        rw [← trimR_reverse_eq, hyrev, hzr]
        simp
      rw [← hz]
      show ((trimL (trimR l)).reverse.dropWhile isSpace).reverse = trimL (trimR l)
      rw [hzr, dropWhile_cons_false isSpace b s hb, ← hzr, List.reverse_reverse]

theorem stripChars_idem (l : List Char) :
    stripChars (stripChars l) = stripChars l := by
  unfold stripChars
  rw [trimR_trimL_trimR]
  exact dropWhile_idem isSpace (trimR l)

theorem stripChars_sub (l : List Char) :
    ∃ a b, l = a ++ stripChars l ++ b := by
  obtain ⟨t1, h1⟩ := trimR_sub l
  obtain ⟨t2, h2⟩ := trimL_sub (trimR l)
  exact ⟨t2, t1, by rw [stripChars]; conv_lhs => rw [h1, h2]⟩

theorem dropLeadingFence_sub (l : List Char) :
    ∃ t, l = t ++ dropLeadingFence l := by
  rcases l with _ | ⟨a, _ | ⟨b, _ | ⟨c, rest⟩⟩⟩
  · exact ⟨[], rfl⟩
  · exact ⟨[], rfl⟩
  · exact ⟨[], rfl⟩
  · by_cases hc : a = fenceChar ∧ b = fenceChar ∧ c = fenceChar
    · obtain ⟨t0, ht0⟩ := dropWhile_sub isAlnum rest
      rcases hdw : rest.dropWhile isAlnum with _ | ⟨d, r2⟩
      · refine ⟨a :: b :: c :: rest, ?_⟩
        simp only [dropLeadingFence, if_pos hc, hdw]
        simp
      · by_cases hd : d = '\n'
        · refine ⟨a :: b :: c :: (t0 ++ [d]), ?_⟩
          simp only [dropLeadingFence, if_pos hc, hdw, if_pos hd]
          rw [ht0, hdw]
          simp
        · refine ⟨a :: b :: c :: t0, ?_⟩
          simp only [dropLeadingFence, if_pos hc, hdw, if_neg hd]
          rw [ht0, hdw]
          simp
    · refine ⟨[], ?_⟩
      simp only [dropLeadingFence, if_neg hc]
      simp

theorem dropTrailingFence_sub (l : List Char) :
    ∃ t, l = dropTrailingFence l ++ t := by
  rcases hrev : l.reverse with _ | ⟨a, _ | ⟨b, _ | ⟨c, rest⟩⟩⟩
  · exact ⟨[], by simp [dropTrailingFence, hrev]⟩
  · exact ⟨[], by simp [dropTrailingFence, hrev]⟩
  · exact ⟨[], by simp [dropTrailingFence, hrev]⟩
  · by_cases hc : a = fenceChar ∧ b = fenceChar ∧ c = fenceChar
    · refine ⟨[c, b, a], ?_⟩
      simp only [dropTrailingFence, hrev, if_pos hc]
      have := congrArg List.reverse hrev
      simpa using this
    · refine ⟨[], ?_⟩
      simp only [dropTrailingFence, hrev, if_neg hc]
      simp

/- ### Fence-stripping lemmas -/

theorem stripChars_append_newline (l : List Char) :
    stripChars (l ++ ['\n']) = stripChars l := by
  unfold stripChars
  have : trimR (l ++ ['\n']) = trimR l := by
    unfold trimR
    rw [List.reverse_append]
    show (('\n' :: l.reverse).dropWhile isSpace).reverse = _
    rw [List.dropWhile_cons, if_pos (by decide)]
  rw [this]

theorem wrapFence_data (tag s : String) :
    (wrapFence tag s).data = wrapList tag.data s.data := by
  have h3 : ("```" : String).data = [fenceChar, fenceChar, fenceChar] := by decide
  have hn : ("\n" : String).data = ['\n'] := by decide
  have hn3 : ("\n```" : String).data = ['\n', fenceChar, fenceChar, fenceChar] := by decide
  simp [wrapFence, wrapList, String.data_append, h3, hn, hn3]
  all_goals decide

theorem wrapList_reverse (tag s : List Char) :
    (wrapList tag s).reverse =
      fenceChar :: fenceChar :: fenceChar :: '\n' ::
        (s.reverse ++ '\n' :: (tag.reverse ++ [fenceChar, fenceChar, fenceChar])) := by
  simp [wrapList]

theorem stripChars_wrapList (tag s : List Char) :
    stripChars (wrapList tag s) = wrapList tag s := by
  unfold stripChars
  have h1 : trimR (wrapList tag s) = wrapList tag s := by
    unfold trimR
    rw [wrapList_reverse,
      dropWhile_cons_false isSpace fenceChar _ (by decide), ← wrapList_reverse,
      List.reverse_reverse]
  rw [h1]
  show (wrapList tag s).dropWhile isSpace = wrapList tag s
  rw [wrapList]
  exact dropWhile_cons_false isSpace fenceChar _ (by decide)

theorem dropLeadingFence_wrapList (tag s : List Char) (htag : tag.all isAlnum = true) :
    dropLeadingFence (wrapList tag s) =
      s ++ ['\n', fenceChar, fenceChar, fenceChar] := by
  have hdw : (tag ++ '\n' :: (s ++ ['\n', fenceChar, fenceChar, fenceChar])).dropWhile isAlnum
      = '\n' :: (s ++ ['\n', fenceChar, fenceChar, fenceChar]) := by
    rw [dropWhile_append_all isAlnum tag _ (by simpa [List.all_eq_true] using htag)]
    exact dropWhile_cons_false isAlnum '\n' _ (by decide)
  simp only [wrapList, dropLeadingFence, if_pos (⟨rfl, rfl, rfl⟩ :
    fenceChar = fenceChar ∧ fenceChar = fenceChar ∧ fenceChar = fenceChar), hdw]
  simp

theorem dropTrailingFence_newline_fence (s : List Char) :
    dropTrailingFence (s ++ ['\n', fenceChar, fenceChar, fenceChar]) = s ++ ['\n'] := by
  have hrev : (s ++ ['\n', fenceChar, fenceChar, fenceChar]).reverse
      = fenceChar :: fenceChar :: fenceChar :: '\n' :: s.reverse := by simp
  simp only [dropTrailingFence, hrev, if_pos (⟨rfl, rfl, rfl⟩ :
    fenceChar = fenceChar ∧ fenceChar = fenceChar ∧ fenceChar = fenceChar)]
  simp

theorem dropLeadingFence_of_take (l : List Char)
    (h : l.take 3 ≠ [fenceChar, fenceChar, fenceChar]) :
    dropLeadingFence l = l := by
  rcases l with _ | ⟨a, _ | ⟨b, _ | ⟨c, rest⟩⟩⟩
  · rfl
  · rfl
  · rfl
  · have hc : ¬(a = fenceChar ∧ b = fenceChar ∧ c = fenceChar) := by
      rintro ⟨rfl, rfl, rfl⟩
      simp at h
    simp only [dropLeadingFence, if_neg hc]

theorem dropTrailingFence_of_take (l : List Char)
    (h : l.reverse.take 3 ≠ [fenceChar, fenceChar, fenceChar]) :
    dropTrailingFence l = l := by
  rcases hrev : l.reverse with _ | ⟨a, _ | ⟨b, _ | ⟨c, rest⟩⟩⟩
  · simp [dropTrailingFence, hrev]
  · simp [dropTrailingFence, hrev]
  · simp [dropTrailingFence, hrev]
  · have hc : ¬(a = fenceChar ∧ b = fenceChar ∧ c = fenceChar) := by
      rintro ⟨rfl, rfl, rfl⟩
      rw [hrev] at h
      simp at h
    simp [dropTrailingFence, hrev, if_neg hc]

theorem dropWhile_length_le (p : Char → Bool) (l : List Char) :
    (l.dropWhile p).length ≤ l.length := by
  obtain ⟨t, ht⟩ := dropWhile_sub p l
  have := congrArg List.length ht
  simp [List.length_append] at this
  omega

theorem stripChars_length_le (l : List Char) : (stripChars l).length ≤ l.length := by
  obtain ⟨a, b, h⟩ := stripChars_sub l
  have := congrArg List.length h
  simp [List.length_append] at this
  omega

theorem dropTrailingFence_length_le (l : List Char) :
    (dropTrailingFence l).length ≤ l.length := by
  obtain ⟨t, h⟩ := dropTrailingFence_sub l
  have := congrArg List.length h
  simp [List.length_append] at this
  omega

theorem dropLeadingFence_length_of_take (l : List Char)
    (h : l.take 3 = [fenceChar, fenceChar, fenceChar]) :
    (dropLeadingFence l).length + 3 ≤ l.length := by
  rcases l with _ | ⟨a, _ | ⟨b, _ | ⟨c, rest⟩⟩⟩
  · simp at h
  · simp at h
  · simp at h
  · have h3 : a = fenceChar ∧ b = fenceChar ∧ c = fenceChar := by simpa using h
    obtain ⟨rfl, rfl, rfl⟩ := h3
    have hlen : (rest.dropWhile isAlnum).length ≤ rest.length := dropWhile_length_le isAlnum rest
    rcases hdw : rest.dropWhile isAlnum with _ | ⟨d, r2⟩
    · simp only [dropLeadingFence, if_pos (show fenceChar = fenceChar ∧ fenceChar = fenceChar
        ∧ fenceChar = fenceChar from ⟨rfl, rfl, rfl⟩), hdw]
      simp
    · rw [hdw] at hlen
      by_cases hd : d = '\n'
      · simp only [dropLeadingFence, if_pos (show fenceChar = fenceChar ∧ fenceChar = fenceChar
          ∧ fenceChar = fenceChar from ⟨rfl, rfl, rfl⟩), hdw, if_pos hd]
        simp at hlen ⊢
        omega
      · simp only [dropLeadingFence, if_pos (show fenceChar = fenceChar ∧ fenceChar = fenceChar
          ∧ fenceChar = fenceChar from ⟨rfl, rfl, rfl⟩), hdw, if_neg hd]
        simp at hlen ⊢
        omega

theorem dropTrailingFence_length_of_take (l : List Char)
    (h : l.reverse.take 3 = [fenceChar, fenceChar, fenceChar]) :
    (dropTrailingFence l).length + 3 = l.length := by
  rcases hrev : l.reverse with _ | ⟨a, _ | ⟨b, _ | ⟨c, rest⟩⟩⟩
  · rw [hrev] at h; simp at h
  · rw [hrev] at h; simp at h
  · rw [hrev] at h; simp at h
  · rw [hrev] at h
    have h3 : a = fenceChar ∧ b = fenceChar ∧ c = fenceChar := by simpa using h
    obtain ⟨rfl, rfl, rfl⟩ := h3
    simp only [dropTrailingFence, hrev, if_pos (show fenceChar = fenceChar
      ∧ fenceChar = fenceChar ∧ fenceChar = fenceChar from ⟨rfl, rfl, rfl⟩)]
    have hl : l.length = l.reverse.length := (List.length_reverse l).symm
    rw [hrev] at hl
    simp at hl ⊢
    omega

theorem strip_fences_eq_strip (s : String)
    (h2 : (stripChars s.data).take 3 ≠ [fenceChar, fenceChar, fenceChar])
    (h3 : (stripChars s.data).reverse.take 3 ≠ [fenceChar, fenceChar, fenceChar]) :
    strip_markdown_fences s = pythonStrip s := by
  unfold strip_markdown_fences pythonStrip
  rw [dropLeadingFence_of_take _ h2, dropTrailingFence_of_take _ h3, stripChars_idem]

theorem strip_fences_wrapFence (tag s : String) (htag : tag.data.all isAlnum = true) :
    strip_markdown_fences (wrapFence tag s) = pythonStrip s := by
  unfold strip_markdown_fences pythonStrip
  rw [wrapFence_data, stripChars_wrapList, dropLeadingFence_wrapList _ _ htag,
    dropTrailingFence_newline_fence, stripChars_append_newline]

theorem strip_eq_self_iff (raw : String) :
    strip_markdown_fences raw = raw
    ↔ (stripChars raw.data = raw.data
      ∧ raw.data.take 3 ≠ [fenceChar, fenceChar, fenceChar]
      ∧ raw.data.reverse.take 3 ≠ [fenceChar, fenceChar, fenceChar]) := by
  constructor
  · intro h
    have hd : stripChars (dropTrailingFence (dropLeadingFence (stripChars raw.data)))
        = raw.data := congrArg String.data h
    have hclean : stripChars raw.data = raw.data := by
      have hstep : stripChars raw.data = stripChars (stripChars
          (dropTrailingFence (dropLeadingFence (stripChars raw.data)))) := by rw [hd]
      rw [stripChars_idem, hd] at hstep
      exact hstep
    have hfront : raw.data.take 3 ≠ [fenceChar, fenceChar, fenceChar] := by
      intro h2
      have l1 : (stripChars (dropTrailingFence (dropLeadingFence (stripChars raw.data)))).length
          ≤ (dropTrailingFence (dropLeadingFence (stripChars raw.data))).length :=
        stripChars_length_le _
      have l2 : (dropTrailingFence (dropLeadingFence (stripChars raw.data))).length
          ≤ (dropLeadingFence (stripChars raw.data)).length :=
        dropTrailingFence_length_le _
      have l3 : (dropLeadingFence (stripChars raw.data)).length + 3
          ≤ (stripChars raw.data).length := by
        apply dropLeadingFence_length_of_take
        rw [hclean]
        exact h2
      have l4 : (stripChars (dropTrailingFence (dropLeadingFence (stripChars raw.data)))).length
          = raw.data.length := by rw [hd]
      have l5 : (stripChars raw.data).length = raw.data.length := by rw [hclean]
      omega
    refine ⟨hclean, hfront, ?_⟩
    intro h3
    have hdlf : dropLeadingFence (stripChars raw.data) = raw.data := by
      rw [hclean]
      exact dropLeadingFence_of_take raw.data hfront
    have l1 : (stripChars (dropTrailingFence (dropLeadingFence (stripChars raw.data)))).length
        ≤ (dropTrailingFence (dropLeadingFence (stripChars raw.data))).length :=
      stripChars_length_le _
    have l2 : (dropTrailingFence (dropLeadingFence (stripChars raw.data))).length + 3
        = (dropLeadingFence (stripChars raw.data)).length := by
      rw [hdlf]
      exact dropTrailingFence_length_of_take raw.data h3
    have l4 : (stripChars (dropTrailingFence (dropLeadingFence (stripChars raw.data)))).length
        = raw.data.length := by rw [hd]
    have l5 : (dropLeadingFence (stripChars raw.data)).length ≤ raw.data.length := by
      rw [hdlf]
    omega
  · rintro ⟨h1, h2, h3⟩
    unfold strip_markdown_fences
    rw [h1, dropLeadingFence_of_take _ h2, dropTrailingFence_of_take _ h3, h1]

/- ### Applier lemmas -/

theorem lookup_any (k : String) (l : List (String × Json)) (v : Json)
    (h : List.lookup k l = some v) : l.any (fun kv => k == kv.1) = true := by
  induction l with
  | nil => simp [List.lookup] at h
  | cons a t ih =>
    rcases a with ⟨k2, v2⟩
    cases hk : (k == k2) with
    | true => simp [List.any_cons, hk]
    | false =>
      simp only [List.lookup, hk] at h
      simp [List.any_cons, hk, ih h]

theorem apply_fix_none (env : Env) (resp c : String)
    (hj : env.jsonLoads resp = none) :
    apply_fix_to_file env resp c = Except.ok (false, c, 0) := by
  simp [apply_fix_to_file, hj]

theorem apply_fix_missing_replacement (env : Env) (resp c : String)
    (fields : List (String × Json))
    (hj : env.jsonLoads resp = some (Json.obj fields))
    (hrep : ∀ kv ∈ fields, kv.1 ≠ "replacement") :
    apply_fix_to_file env resp c = Except.ok (false, c, 0) := by
  have hrep_any : fields.any (fun kv => ("replacement" : String) == kv.1) = false := by
    rw [List.any_eq_false]
    intro x hx
    simp only [beq_iff_eq]
    exact fun he => hrep x hx he.symm
  simp [apply_fix_to_file, hj, pyContains, hrep_any]

theorem apply_fix_regex (env : Env) (resp c : String)
    (fields : List (String × Json)) (p r : String)
    (hj : env.jsonLoads resp = some (Json.obj fields))
    (hp : List.lookup "regex_pattern" fields = some (Json.str p))
    (hr : List.lookup "replacement" fields = some (Json.str r)) :
    apply_fix_to_file env resp c =
      if env.reSub p r c = c then Except.ok (false, c, 0)
      else Except.ok (true, env.reSub p r c, 1) := by
  have hpa := lookup_any "regex_pattern" fields _ hp
  have hra := lookup_any "replacement" fields _ hr
  simp [apply_fix_to_file, hj, pyContains, hpa, hra, pyIndex, hp, hr, asStr]

theorem apply_fix_full (env : Env) (resp c : String)
    (fields : List (String × Json)) (r : String)
    (hj : env.jsonLoads resp = some (Json.obj fields))
    (hreg : ∀ kv ∈ fields, kv.1 ≠ "regex_pattern")
    (hr : List.lookup "replacement" fields = some (Json.str r)) :
    apply_fix_to_file env resp c = Except.ok (true, r, 1) := by
  have hpa : fields.any (fun kv => ("regex_pattern" : String) == kv.1) = false := by
    rw [List.any_eq_false]
    intro x hx
    simp only [beq_iff_eq]
    exact fun he => hreg x hx he.symm
  have hra := lookup_any "replacement" fields _ hr
  simp [apply_fix_to_file, hj, pyContains, hpa, hra, pyIndex, hr, asStr]

theorem apply_fix_ok_bounds (env : Env) (resp c : String) (b : Bool)
    (c2 : String) (w : Nat)
    (h : apply_fix_to_file env resp c = Except.ok (b, c2, w)) :
    w ≤ 1 ∧ (b = false → c2 = c ∧ w = 0) := by
  unfold apply_fix_to_file at h
  repeat' split at h
  all_goals simp at h
  all_goals obtain ⟨hb, hc, hw⟩ := h
  all_goals subst hb
  all_goals subst hc
  all_goals subst hw
  all_goals simp

/- ### Loop lemmas -/

theorem fixLoopAux_succ_valid (env : Env) (n : Nat) (c : String)
    (hv : (env.validator c).1 = true) :
    fixLoopAux env (Nat.succ n) c = ⟨Outcome.Done, c, 1, 0, 1⟩ := by
  simp [fixLoopAux, hv]

theorem fixLoopAux_succ_unchanged (env : Env) (n : Nat) (c : String)
    (hv : (env.validator c).1 = false)
    (ha : apply_fix_to_file env (call_openai_for_fix env (errorSummary env c) c) c
      = Except.ok (false, c, 0)) :
    fixLoopAux env (Nat.succ n) c = ⟨Outcome.Aborted, c, 1, 0, 1⟩ := by
  simp [fixLoopAux, hv, ha]

theorem stepContent_of_apply (env : Env) (c c2 : String) (b : Bool) (w : Nat)
    (hv : (env.validator c).1 = false)
    (ha : apply_fix_to_file env (call_openai_for_fix env (errorSummary env c) c) c
      = Except.ok (b, c2, w)) :
    stepContent env c = c2 := by
  simp [stepContent, hv, ha]

theorem loop_bounds (env : Env) : ∀ (fuel : Nat) (c : String),
    (fixLoopAux env fuel c).iterations ≤ fuel
    ∧ (fixLoopAux env fuel c).writes ≤ (fixLoopAux env fuel c).iterations
    ∧ ((fixLoopAux env fuel c).outcome = Outcome.Exhausted →
        (fixLoopAux env fuel c).iterations = fuel
        ∧ (fixLoopAux env fuel c).content = iterContent env fuel c) := by
  intro fuel
  induction fuel with
  | zero => intro c; refine ⟨le_refl 0, le_refl 0, fun _ => ⟨rfl, rfl⟩⟩
  | succ n ih =>
    intro c
    by_cases hv : (env.validator c).1
    · rw [fixLoopAux_succ_valid env n c hv]
      exact ⟨Nat.succ_le_succ (Nat.zero_le n), Nat.zero_le 1, fun h => by simp at h⟩
    · rcases ha : apply_fix_to_file env
          (call_openai_for_fix env (errorSummary env c) c) c with e | ⟨b, c2, w⟩
      · have : fixLoopAux env (Nat.succ n) c = ⟨Outcome.Crashed e, c, 1, 0, 1⟩ := by
          simp [fixLoopAux, hv, ha]
        rw [this]
        exact ⟨Nat.succ_le_succ (Nat.zero_le n), Nat.zero_le 1, fun h => by simp at h⟩
      · obtain ⟨hw1, -⟩ := apply_fix_ok_bounds env _ c b c2 w ha
        cases b with
        | false =>
          obtain ⟨he, hw0⟩ := (apply_fix_ok_bounds env _ c false c2 w ha).2 rfl
          rw [he, hw0] at ha
          rw [fixLoopAux_succ_unchanged env n c (by simpa using hv) ha]
          exact ⟨Nat.succ_le_succ (Nat.zero_le n), Nat.zero_le 1, fun h => by simp at h⟩
        | true =>
          have hloop : fixLoopAux env (Nat.succ n) c =
              ⟨(fixLoopAux env n c2).outcome, (fixLoopAux env n c2).content,
                (fixLoopAux env n c2).checks + 1, (fixLoopAux env n c2).writes + w,
                (fixLoopAux env n c2).iterations + 1⟩ := by
            simp [fixLoopAux, hv, ha]
          obtain ⟨ih1, ih2, ih3⟩ := ih c2
          rw [hloop]
          refine ⟨Nat.succ_le_succ ih1, ?_, ?_⟩
          · exact Nat.add_le_add ih2 hw1
          · intro hout
            simp only at hout
            obtain ⟨hit, hcont⟩ := ih3 hout
            refine ⟨by simp [hit], ?_⟩
            have hstep : stepContent env c = c2 :=
              stepContent_of_apply env c c2 true w (by simpa using hv) ha
            simp only [iterContent, hstep]
            exact hcont

/- ### Claim theorems -/

/-- Claim C1: for every file whose content already validates, the repair
loop terminates in state `Done` after exactly one validation check,
performs zero writes, and reports the file's content unchanged. -/
theorem C1_valid_json_done (env : Env) (c : String) (m : Nat)
    (hv : (env.validator c).1 = true) (hm : 1 ≤ m) :
    fix_json_until_valid env c m = ⟨Outcome.Done, c, 1, 0, 1⟩ := by
  obtain ⟨n, rfl⟩ : ∃ n, m = n + 1 := ⟨m - 1, by omega⟩
  exact fixLoopAux_succ_valid env n c hv

/-- Witness for C1 at a concrete valid input. -/
theorem C1_valid_json_done_witness :
    (envValid.validator "\x7b\x7d").1 = true
    ∧ fix_json_until_valid envValid "\x7b\x7d" default_max_iterations
        = ⟨Outcome.Done, "\x7b\x7d", 1, 0, 1⟩ :=
  ⟨rfl, C1_valid_json_done envValid "\x7b\x7d" default_max_iterations rfl (by decide)⟩

/-- Claim C2: the repair loop executes at most `max_iterations` iterations
(default 10), each iteration performs at most one write, and when the
budget is exhausted without success the loop terminates in `Exhausted`
reporting exactly the content reached after `max_iterations` fix
iterations, with no write beyond them. -/
theorem C2_iteration_budget (env : Env) (c : String) (m : Nat) :
    ((fix_json_until_valid env c m).iterations ≤ m
      ∧ (fix_json_until_valid env c m).writes ≤ (fix_json_until_valid env c m).iterations
      ∧ default_max_iterations = 10)
    ∧ ((fix_json_until_valid env c m).outcome = Outcome.Exhausted →
        (fix_json_until_valid env c m).iterations = m
        ∧ (fix_json_until_valid env c m).content = iterContent env m c) := by
  obtain ⟨h1, h2, h3⟩ := loop_bounds env m c
  exact ⟨⟨h1, h2, rfl⟩, h3⟩

/-- Witness for C2 on a run that exhausts a budget of one iteration. -/
theorem C2_iteration_budget_witness :
    ((fix_json_until_valid envFullY "x" 1).iterations ≤ 1
      ∧ (fix_json_until_valid envFullY "x" 1).writes
          ≤ (fix_json_until_valid envFullY "x" 1).iterations
      ∧ default_max_iterations = 10)
    ∧ ((fix_json_until_valid envFullY "x" 1).iterations = 1
      ∧ (fix_json_until_valid envFullY "x" 1).content = iterContent envFullY 1 "x") :=
  ⟨(C2_iteration_budget envFullY "x" 1).1,
    (C2_iteration_budget envFullY "x" 1).2 (by rfl)⟩

/-- Claim C3: whenever the applier reports `changed = false` — the
response is not valid JSON after fence stripping, the parsed object lacks
the `replacement` key, or the regex substitution leaves the content
unchanged — no write happens, the content is unchanged, and the loop
terminates in `Aborted` on that same iteration. -/
theorem C3_unapplied_fix_aborts (env : Env) (c : String) (m : Nat)
    (hm : 1 ≤ m) (hv : (env.validator c).1 = false)
    (h : env.jsonLoads (call_openai_for_fix env (errorSummary env c) c) = none
      ∨ (∃ fields, env.jsonLoads (call_openai_for_fix env (errorSummary env c) c)
            = some (Json.obj fields)
          ∧ ∀ kv ∈ fields, kv.1 ≠ "replacement")
      ∨ (∃ fields p r, env.jsonLoads (call_openai_for_fix env (errorSummary env c) c)
            = some (Json.obj fields)
          ∧ List.lookup "regex_pattern" fields = some (Json.str p)
          ∧ List.lookup "replacement" fields = some (Json.str r)
          ∧ env.reSub p r c = c)) :
    fix_json_until_valid env c m = ⟨Outcome.Aborted, c, 1, 0, 1⟩ := by
  obtain ⟨n, rfl⟩ : ∃ n, m = n + 1 := ⟨m - 1, by omega⟩
  have ha : apply_fix_to_file env (call_openai_for_fix env (errorSummary env c) c) c
      = Except.ok (false, c, 0) := by
    rcases h with hnone | ⟨fields, hj, hrep⟩ | ⟨fields, p, r, hj, hp, hr, hnoop⟩
    · exact apply_fix_none env _ c hnone
    · exact apply_fix_missing_replacement env _ c fields hj hrep
    · rw [apply_fix_regex env _ c fields p r hj hp hr, if_pos hnoop]
  exact fixLoopAux_succ_unchanged env n c hv ha

/-- Witness for C3 with a remote response that is not JSON. -/
theorem C3_unapplied_fix_aborts_witness :
    (envParseFail.validator "oops").1 = false
    ∧ fix_json_until_valid envParseFail "oops" default_max_iterations
        = ⟨Outcome.Aborted, "oops", 1, 0, 1⟩ :=
  ⟨rfl, C3_unapplied_fix_aborts envParseFail "oops" default_max_iterations
    (by decide) rfl (Or.inl rfl)⟩

/-- Claim C4: for a fix suggestion carrying both `regex_pattern` and
`replacement`, the applier substitutes every match over the whole content
(the external `re.sub`, modelled by `Env.reSub`); if the result differs it
writes once and returns `true`, and if it is identical it returns `false`
without writing. -/
theorem C4_regex_substitution (env : Env) (resp c : String)
    (fields : List (String × Json)) (p r : String)
    (hj : env.jsonLoads resp = some (Json.obj fields))
    (hp : List.lookup "regex_pattern" fields = some (Json.str p))
    (hr : List.lookup "replacement" fields = some (Json.str r)) :
    (env.reSub p r c ≠ c →
      apply_fix_to_file env resp c = Except.ok (true, env.reSub p r c, 1))
    ∧ (env.reSub p r c = c →
      apply_fix_to_file env resp c = Except.ok (false, c, 0)) := by
  constructor
  · intro hne
    rw [apply_fix_regex env resp c fields p r hj hp hr, if_neg hne]
  · intro he
    rw [apply_fix_regex env resp c fields p r hj hp hr, if_pos he]

/-- Witness for C4 on a concrete productive regex fix. -/
theorem C4_regex_substitution_witness :
    envRegexFix.reSub "a" "b" "x" ≠ "x"
    ∧ apply_fix_to_file envRegexFix rxResp "x" = Except.ok (true, "b", 1) :=
  ⟨by decide,
    (C4_regex_substitution envRegexFix rxResp "x"
      [("regex_pattern", Json.str "a"), ("replacement", Json.str "b")] "a" "b"
      rfl rfl rfl).1 (by decide)⟩

/-- Claim C5: evaluation at the failing input.  A remote response of `123`
is valid JSON, so `json.loads` succeeds with a Python `int`; the
membership test `"regex_pattern" in fix_data` then raises `TypeError`,
which `apply_fix_to_file` does not catch (only `JSONDecodeError` is), so a
JSON-shape error escapes the applier and crashes the whole run instead of
yielding `changed = false`. -/
theorem C5_json_shape_error_escapes :
    apply_fix_to_file envCrash "123" "\x7b\"a\": 1,\x7d" = Except.error PyErr.typeError
    ∧ (fix_json_until_valid envCrash "\x7b\"a\": 1,\x7d" default_max_iterations).outcome
        = Outcome.Crashed PyErr.typeError :=
  ⟨rfl, rfl⟩

/-- Counterexample to C6 as stated: a full-content replacement that is
byte-for-byte identical to the current content is NOT treated like a
malformed response — the applier reports `changed = true` and writes, and
the loop keeps iterating (here to exhaustion after two identical writes)
instead of terminating early. -/
theorem C6_noop_full_replacement_cex :
    apply_fix_to_file envFullX frRespX "x" = Except.ok (true, "x", 1)
    ∧ fix_json_until_valid envFullX "x" 2 = ⟨Outcome.Exhausted, "x", 2, 2, 2⟩ :=
  ⟨rfl, rfl⟩

/-- Claim C6 (amended): a regex-based fix whose application leaves the
content byte-for-byte unchanged (pattern matched nothing, or the
substitution was a no-op) is treated identically to a malformed response:
the loop terminates early in `Aborted` with no write; a full-content
replacement, by contrast, reports `changed = true` and writes
unconditionally, even when identical to the current content. -/
theorem C6_noop_regex_aborts (env : Env) (c : String) (m : Nat)
    (hm : 1 ≤ m) (hv : (env.validator c).1 = false)
    (fields : List (String × Json)) (p r : String)
    (hj : env.jsonLoads (call_openai_for_fix env (errorSummary env c) c)
        = some (Json.obj fields))
    (hp : List.lookup "regex_pattern" fields = some (Json.str p))
    (hr : List.lookup "replacement" fields = some (Json.str r))
    (hnoop : env.reSub p r c = c) :
    fix_json_until_valid env c m = ⟨Outcome.Aborted, c, 1, 0, 1⟩
    ∧ ∀ resp2 c2 fields2 r2, env.jsonLoads resp2 = some (Json.obj fields2) →
        (∀ kv ∈ fields2, kv.1 ≠ "regex_pattern") →
        List.lookup "replacement" fields2 = some (Json.str r2) →
        apply_fix_to_file env resp2 c2 = Except.ok (true, r2, 1) := by
  constructor
  · obtain ⟨n, rfl⟩ : ∃ n, m = n + 1 := ⟨m - 1, by omega⟩
    have ha : apply_fix_to_file env (call_openai_for_fix env (errorSummary env c) c) c
        = Except.ok (false, c, 0) := by
      rw [apply_fix_regex env _ c fields p r hj hp hr, if_pos hnoop]
    exact fixLoopAux_succ_unchanged env n c hv ha
  · intro resp2 c2 fields2 r2 hj2 hreg2 hr2
    exact apply_fix_full env resp2 c2 fields2 r2 hj2 hreg2 hr2

/-- Witness for the amended C6 on a concrete no-op regex fix. -/
theorem C6_noop_regex_aborts_witness :
    fix_json_until_valid envRegexNoop "x" 1 = ⟨Outcome.Aborted, "x", 1, 0, 1⟩ :=
  (C6_noop_regex_aborts envRegexNoop "x" 1 (by decide) rfl
    [("regex_pattern", Json.str "a"), ("replacement", Json.str "b")] "a" "b"
    rfl rfl rfl rfl).1

/-- Counterexample to C7 as stated: for the response text `x` followed by
a fence marker, wrapping in fences and then stripping does not agree with
stripping the unwrapped text (the unwrapped text loses its trailing
fence marker, the wrapped text keeps it). -/
theorem C7_fence_wrap_cex :
    strip_markdown_fences (wrapFence "json" "x```") ≠ strip_markdown_fences "x```" := by
  decide

/-- Claim C7 (amended): for a response text whose trimmed form neither
begins nor ends with a fence marker, wrapping it in a leading code fence
(with an alphanumeric language tag, possibly empty) and a trailing code
fence and then fence-stripping agrees with fence-stripping the unwrapped
text; and on such clean input fence-stripping is exactly a whitespace
trim. -/
theorem C7_fence_wrap_amended (tag s : String)
    (htag : tag.data.all isAlnum = true)
    (h2 : (stripChars s.data).take 3 ≠ [fenceChar, fenceChar, fenceChar])
    (h3 : (stripChars s.data).reverse.take 3 ≠ [fenceChar, fenceChar, fenceChar]) :
    strip_markdown_fences (wrapFence tag s) = strip_markdown_fences s
    ∧ strip_markdown_fences s = pythonStrip s := by
  have hclean := strip_fences_eq_strip s h2 h3
  exact ⟨by rw [strip_fences_wrapFence tag s htag, hclean], hclean⟩

/-- Witness for the amended C7 on a concrete clean response. -/
theorem C7_fence_wrap_amended_witness :
    strip_markdown_fences (wrapFence "json" "hello") = strip_markdown_fences "hello"
    ∧ strip_markdown_fences "hello" = pythonStrip "hello" :=
  C7_fence_wrap_amended "json" "hello" (by decide) (by decide) (by decide)

/-- Counterexample to C8 as stated: the requester does transform the raw
text of the top response choice — a fenced response is returned with its
fences stripped, not unmodified. -/
theorem C8_requester_transforms_cex :
    call_openai_for_fix envFenced "e" "c" ≠ envFenced.llm (buildPrompt "e" "c") := by
  decide

/-- Claim C8 (amended): the requester returns the raw text of the top
response choice after fence stripping, and this is the identity exactly on
clean responses: the requester returns the raw response unmodified if and
only if the response has no surrounding whitespace and no leading or
trailing fence marker; every other response is transformed. -/
theorem C8_requester_amended (env : Env) (e c : String) :
    call_openai_for_fix env e c = env.llm (buildPrompt e c)
    ↔ (stripChars (env.llm (buildPrompt e c)).data = (env.llm (buildPrompt e c)).data
      ∧ ((env.llm (buildPrompt e c)).data).take 3
          ≠ [fenceChar, fenceChar, fenceChar]
      ∧ ((env.llm (buildPrompt e c)).data).reverse.take 3
          ≠ [fenceChar, fenceChar, fenceChar]) :=
  strip_eq_self_iff (env.llm (buildPrompt e c))

/-- Witness for the amended C8 on a concrete clean response. -/
theorem C8_requester_amended_witness :
    call_openai_for_fix envCleanResp "e" "c" = "ok" :=
  (C8_requester_amended envCleanResp "e" "c").mpr ⟨by decide, by decide, by decide⟩

/-- Claim C9: the syntax prober is advisory only.  Two runs that agree on
the validator, the fix parsing and the substitution engine, and whose
remote service returns the same response text at each step, reach the same
terminal state (indeed the same full observable result) even when their
probers report different outcomes: the prober only changes the error text
embedded in the prompt. -/
theorem C9_prober_advisory (env1 env2 : Env) (c : String) (m : Nat)
    (hV : env1.validator = env2.validator)
    (hJ : env1.jsonLoads = env2.jsonLoads)
    (hR : env1.reSub = env2.reSub)
    (hresp : ∀ c2, env1.llm (buildPrompt (errorSummary env1 c2) c2)
        = env2.llm (buildPrompt (errorSummary env2 c2) c2)) :
    fix_json_until_valid env1 c m = fix_json_until_valid env2 c m := by
  unfold fix_json_until_valid
  induction m generalizing c with
  | zero => rfl
  | succ n ih =>
    by_cases hv : (env1.validator c).1
    · rw [fixLoopAux_succ_valid env1 n c hv,
        fixLoopAux_succ_valid env2 n c (by rw [← hV]; exact hv)]
    · have hv1 : (env1.validator c).1 = false := by simpa using hv
      have hv2 : (env2.validator c).1 = false := by rw [← hV]; exact hv1
      have hsugg : call_openai_for_fix env1 (errorSummary env1 c) c
          = call_openai_for_fix env2 (errorSummary env2 c) c := by
        unfold call_openai_for_fix
        rw [hresp c]
      have happ : apply_fix_to_file env1 (call_openai_for_fix env1 (errorSummary env1 c) c) c
          = apply_fix_to_file env2 (call_openai_for_fix env2 (errorSummary env2 c) c) c := by
        unfold apply_fix_to_file
        simp only [hJ, hR, hsugg]
      rcases ha : apply_fix_to_file env1 (call_openai_for_fix env1 (errorSummary env1 c) c) c
        with e | ⟨b, c2, w⟩
      · have h1 : fixLoopAux env1 (Nat.succ n) c = ⟨Outcome.Crashed e, c, 1, 0, 1⟩ := by
          simp [fixLoopAux, hv1, ha]
        have h2 : fixLoopAux env2 (Nat.succ n) c = ⟨Outcome.Crashed e, c, 1, 0, 1⟩ := by
          simp [fixLoopAux, hv2, ← happ, ha]
        rw [h1, h2]
      · cases b with
        | false =>
          have h1 : fixLoopAux env1 (Nat.succ n) c = ⟨Outcome.Aborted, c, 1, 0, 1⟩ := by
            simp [fixLoopAux, hv1, ha]
          have h2 : fixLoopAux env2 (Nat.succ n) c = ⟨Outcome.Aborted, c, 1, 0, 1⟩ := by
            simp [fixLoopAux, hv2, ← happ, ha]
          rw [h1, h2]
        | true =>
          have h1 : fixLoopAux env1 (Nat.succ n) c =
              ⟨(fixLoopAux env1 n c2).outcome, (fixLoopAux env1 n c2).content,
                (fixLoopAux env1 n c2).checks + 1, (fixLoopAux env1 n c2).writes + w,
                (fixLoopAux env1 n c2).iterations + 1⟩ := by
            simp [fixLoopAux, hv1, ha]
          have h2 : fixLoopAux env2 (Nat.succ n) c =
              ⟨(fixLoopAux env2 n c2).outcome, (fixLoopAux env2 n c2).content,
                (fixLoopAux env2 n c2).checks + 1, (fixLoopAux env2 n c2).writes + w,
                (fixLoopAux env2 n c2).iterations + 1⟩ := by
            simp [fixLoopAux, hv2, ← happ, ha]
          rw [h1, h2, ih c2]

/-- Witness for C9 on two concrete environments differing only in the
prober's outcome. -/
theorem C9_prober_advisory_witness :
    fix_json_until_valid envProbeOk "x" 2 = fix_json_until_valid envProbeBad "x" 2 :=
  C9_prober_advisory envProbeOk envProbeBad "x" 2 rfl rfl rfl (fun _ => rfl)

/-- Claim C10: fence stripping only removes characters at the two ends:
its output is a contiguous substring of the input, and it carries no
leading or trailing whitespace (a further strip is the identity on it). -/
theorem C10_strip_contiguous_substring (s : String) :
    (∃ pre post, s.data = pre ++ (strip_markdown_fences s).data ++ post)
    ∧ stripChars (strip_markdown_fences s).data = (strip_markdown_fences s).data := by
  constructor
  · obtain ⟨a1, b1, h1⟩ := stripChars_sub s.data
    obtain ⟨t2, h2⟩ := dropLeadingFence_sub (stripChars s.data)
    obtain ⟨t3, h3⟩ := dropTrailingFence_sub (dropLeadingFence (stripChars s.data))
    obtain ⟨a4, b4, h4⟩ :=
      stripChars_sub (dropTrailingFence (dropLeadingFence (stripChars s.data)))
    refine ⟨a1 ++ (t2 ++ a4), b4 ++ (t3 ++ b1), ?_⟩
    show s.data = a1 ++ (t2 ++ a4)
      ++ stripChars (dropTrailingFence (dropLeadingFence (stripChars s.data)))
      ++ (b4 ++ (t3 ++ b1))
    conv_lhs => rw [h1, h2, h3, h4]
    simp [List.append_assoc]
  · exact stripChars_idem _

end JsonFixer
